import Mathlib

/-!
Shallow embedding of `src/logging.rs` (playground-middleware): an Iron
middleware that measures each request, extracts the response status, and
ships a `LogPacket` over an mpsc channel to a single background worker
thread, which encodes it as one CSV row and writes it to a file sink.

Modelling choices:
* `SystemTime` is nanoseconds since `UNIX_EPOCH` as an `Int` (negative
  means before the epoch, where `duration_since(UNIX_EPOCH)` fails).
* `Instant` is a monotonic clock reading in nanoseconds as a `Nat`.
* `Duration` mirrors Rust `std::time::Duration`: whole seconds plus
  subsecond nanoseconds.
* Panics (`expect`) are modelled as `none` / `Except.error` at the point
  the panic would occur.
* The csv/rustc_serialize encoder is modelled as a field accumulator:
  each `encode` of a string pushes one field; encoding an `Option` pushes
  the value or an empty field (csv's `Encoded` writes an empty entry for
  `None`).
-/

abbrev SystemTime := Int

abbrev Instant := Nat

/-- Rust `std::time::Duration`: seconds and subsecond nanoseconds
(`as_secs` / `subsec_nanos`); well-formed values have `nanos < 10^9`. -/
structure Duration where
  secs : Nat
  nanos : Nat
deriving Repr, DecidableEq

/-- Build a `Duration` from a total nanosecond count. -/
def natToDuration (n : Nat) : Duration :=
  ⟨n / 1000000000, n % 1000000000⟩

/-- Total nanoseconds represented by a `Duration`. -/
def Duration.toNanos (d : Duration) : Nat :=
  d.secs * 1000000000 + d.nanos

/-- The external `iron::status::Status` of a response, carrying the numeric
HTTP status code. -/
structure Status where
  code : Nat
deriving Repr, DecidableEq

/-- Modelled from the spec: the rendering `format!("\x7b:?\x7d", status)` of the
external `iron::status::Status` type (a dependency whose source is not part of
this repository). Per the spec's interface description the status field is the
numeric code as a string (`status as "<code>"`, e.g. `"200"`). -/
def statusDebug (s : Status) : String :=
  Nat.repr s.code

/-- `encode_duration` from `logging.rs`:
`format!("\x7b\x7d.\x7b\x7d", duration.as_secs(), duration.subsec_nanos())`. -/
def encode_duration (d : Duration) : String :=
  Nat.repr d.secs ++ "." ++ Nat.repr d.nanos

/-- `LogPacket` from `logging.rs`. `url` and `ip` are kept in their
`to_string()` rendering, which is all the encoder observes. -/
structure LogPacket where
  url : String
  ip : String
  status : Option Status
  start : SystemTime
  timing : Duration
deriving Repr, DecidableEq

/-- State of the csv `Encoded` encoder: the fields of the row built so far. -/
structure Encoded where
  record : List String
deriving Repr, DecidableEq

/-- Encoding a string pushes one field onto the record. -/
def emitStr (s : String) (e : Encoded) : Encoded :=
  ⟨e.record ++ [s]⟩

/-- Encoding an `Option<String>`: `Some` pushes the string, `None` pushes an
empty field (csv's `Encoded` emits an empty entry for `None`). -/
def emitOptStr : Option String → Encoded → Encoded
  | none, e => emitStr "" e
  | some s, e => emitStr s e

/-- `SystemTime::duration_since(UNIX_EPOCH)`: fails (`Err`) when the time is
before the epoch; the source `expect`s the result, so `none` models the
panic path. -/
def durationSinceEpoch (t : SystemTime) : Option Duration :=
  if 0 ≤ t then some (natToDuration t.toNat) else none

/-- `impl Encodable for LogPacket`: url, ip, optional status, then the
start time (as duration since the epoch) and the timing, both via
`encode_duration`. `none` models the `expect` panic on a pre-epoch start. -/
def LogPacket.encode (p : LogPacket) (s0 : Encoded) : Option Encoded :=
  let s1 := emitStr p.url s0
  let s2 := emitStr p.ip s1
  let s3 := emitOptStr (p.status.map statusDebug) s2
  match durationSinceEpoch p.start with
  | none => none
  | some start =>
    some (emitStr (encode_duration p.timing) (emitStr (encode_duration start) s3))

/-- The CSV row produced for one packet (what `csv::Writer::encode` writes). -/
def encodeRow (p : LogPacket) : Option (List String) :=
  (p.encode ⟨[]⟩).map Encoded.record

/-- The status field of the row of a packet (third field, index 2). -/
def rowStatus (p : LogPacket) : Option String :=
  (encodeRow p).bind (fun row => row[2]?)

/-- The status field as emitted by the encoder for a given optional status. -/
def statusField (o : Option Status) : String :=
  match o with
  | none => ""
  | some s => statusDebug s

/-- An iron `Response`; only the status and an abstract body are tracked. -/
structure Response where
  status : Option Status
  body : String
deriving Repr, DecidableEq

/-- An `IronError`: a handler failure carrying an error `Response`. -/
structure IronError where
  response : Response
deriving Repr, DecidableEq

/-- `IronResult<Response>`. -/
abbrev IronResult := Except IronError Response

/-- An iron `Request`; only the url and the remote address are tracked. -/
structure Request where
  url : String
  remoteAddr : String
deriving Repr, DecidableEq

/-- `Instant::duration_since`: the monotonic delta between two marks. The
`Instant` contract guarantees `earlier ≤ later` for marks taken in order on
one thread. -/
def Instant.duration_since (later earlier : Instant) : Duration :=
  natToDuration (later - earlier)

/-- `time_it` from `logging.rs`: records the wall clock at start, brackets the
call between two monotonic marks, and returns (start, timing, result). The
clock readings are inputs of the model (the nondeterministic environment). -/
def time_it {T : Type} (wallNow : SystemTime) (before after : Instant)
    (f : Unit → T) : SystemTime × Duration × T :=
  (wallNow, Instant.duration_since after before, f ())

/-- `LogHandler::handle`: times the inner handler, extracts the status from
either branch of the result, builds a `LogPacket`, and sends it to the worker
thread. `workerAlive` says whether the channel receiver still exists;
`mpsc::Sender::send` fails exactly when it does not, and the source `expect`s
that send, so the dead-worker case is the panic
"Unable to send log to logger thread". On success the handler returns the
inner result unchanged (paired here with the packet it submitted). -/
def LogHandler.handle (inner : Request → IronResult) (workerAlive : Bool)
    (req : Request) (wallNow : SystemTime) (before after : Instant) :
    Except String (IronResult × LogPacket) :=
  let r := time_it wallNow before after (fun _ => inner req)
  let status : Option Status :=
    match r.2.2 with
    | Except.ok success => success.status
    | Except.error failure => failure.response.status
  if workerAlive then
    Except.ok (r.2.2,
      { url := req.url, ip := req.remoteAddr, status := status,
        start := r.1, timing := r.2.1 })
  else
    Except.error "Unable to send log to logger thread"

/-- The sequence of packets the worker loop passes to `sink.log`, given the
queue contents in submission order: each packet is attempted once, in order,
and a sink failure makes the `expect` panic end the loop (no retry, no
further packets). -/
def workerCalls {E : Type} (sink : LogPacket → Except E Unit) :
    List LogPacket → List LogPacket
  | [] => []
  | p :: rest =>
    match sink p with
    | Except.ok _ => p :: workerCalls sink rest
    | Except.error _ => [p]

/-- Whether the worker thread survives processing the given packets: `false`
as soon as one `sink.log` call fails (the worker panics on `expect`). -/
def workerOk {E : Type} (sink : LogPacket → Except E Unit) :
    List LogPacket → Bool
  | [] => true
  | p :: rest =>
    match sink p with
    | Except.ok _ => workerOk sink rest
    | Except.error _ => false

/-- One request handled through the full pipeline: the worker has already
processed `processed` (so it is alive iff no sink call among them failed),
and then `LogHandler::handle` runs for the request. -/
def pipelineHandle {E : Type} (sink : LogPacket → Except E Unit)
    (processed : List LogPacket) (inner : Request → IronResult) (req : Request)
    (wallNow : SystemTime) (before after : Instant) :
    Except String (IronResult × LogPacket) :=
  LogHandler.handle inner (workerOk sink processed) req wallNow before after

/-- State of the csv writer backing `FileLogger`: the rows written to the
underlying writer and how many of them have been flushed to the file. -/
structure CsvWriterState where
  rows : List (List String)
  flushed : Nat
deriving Repr, DecidableEq

/-- `impl LogWriter for FileLogger`: `try!(self.0.encode(packet));
self.0.flush()`. `writeErr` and `flushErr` inject the I/O faults of the two
steps; a failed write appends nothing. Outer `none` models the encoder panic
on a pre-epoch start time. -/
def FileLogger.log (writeErr flushErr : Option String) (st : CsvWriterState)
    (p : LogPacket) : Option (CsvWriterState × Except String Unit) :=
  match encodeRow p with
  | none => none
  | some row =>
    match writeErr with
    | some e => some (st, Except.error e)
    | none =>
      let st1 : CsvWriterState := ⟨st.rows ++ [row], st.flushed⟩
      match flushErr with
      | some e => some (st1, Except.error e)
      | none => some (⟨st1.rows, st1.rows.length⟩, Except.ok ())

/-- `q` is an interleaving of the per-producer submission sequences `ls`:
exactly what an mpsc channel's receive order can be for concurrent senders
(each producer's sends appear in their submission order). -/
inductive MergeOf {α : Type} : List (List α) → List α → Prop
  | nil {ls : List (List α)} (h : ∀ l ∈ ls, l = []) : MergeOf ls []
  | step {ls : List (List α)} {i : Nat} {x : α} {rest : List α} {q : List α}
      (hi : ls[i]? = some (x :: rest)) (htail : MergeOf (ls.set i rest) q) :
      MergeOf ls (x :: q)

/-- Numeric value of a decimal digit character. -/
def charVal (c : Char) : Nat :=
  c.toNat - 48

/-- One step of reading a decimal number left to right. -/
def valStep (a : Nat) (c : Char) : Nat :=
  10 * a + charVal c

/-- The number denoted by a list of decimal digit characters. -/
def valOf (l : List Char) : Nat :=
  l.foldl valStep 0

/-- Split a character list at its first `'.'`. -/
def splitAtDot : List Char → Option (List Char × List Char)
  | [] => none
  | c :: rest =>
    if c = '.' then some ([], rest)
    else (splitAtDot rest).map (fun p => (c :: p.1, p.2))

/-- Decoder for the `encode_duration` format: the digits before the first dot
are the seconds, the digits after it the nanoseconds. -/
def decode_duration (s : String) : Option (Nat × Nat) :=
  (splitAtDot s.data).map (fun p => (valOf p.1, valOf p.2))

/-! ## Helper lemmas -/

theorem emitOptStr_statusField (o : Option Status) (e : Encoded) :
    emitOptStr (o.map statusDebug) e = emitStr (statusField o) e := by
  cases o <;> rfl

theorem toNanos_natToDuration (n : Nat) : (natToDuration n).toNanos = n := by
  simp only [natToDuration, Duration.toNanos]
  omega

theorem handle_alive (inner : Request → IronResult) (req : Request)
    (wallNow : SystemTime) (before after : Instant) :
    LogHandler.handle inner true req wallNow before after =
      Except.ok (inner req,
        { url := req.url, ip := req.remoteAddr,
          status :=
            match inner req with
            | Except.ok success => success.status
            | Except.error failure => failure.response.status,
          start := wallNow, timing := Instant.duration_since after before }) := by
  rfl

/-! ## Claims -/

/-- C3: for every request and every inner handler result (success or
failure), whenever the middleware's handle operation returns a value to the
caller, the response (or error) component is exactly the value the inner
handler produced, unchanged. -/
theorem claim_C3_transparent (inner : Request → IronResult) (alive : Bool)
    (req : Request) (wallNow : SystemTime) (before after : Instant)
    (r : IronResult × LogPacket)
    (h : LogHandler.handle inner alive req wallNow before after = Except.ok r) :
    r.1 = inner req := by
  cases alive with
  | false => simp [LogHandler.handle, time_it] at h
  | true =>
    rw [handle_alive] at h
    cases h
    rfl

theorem claim_C3_witness :
    (LogHandler.handle (fun _ => (Except.ok ⟨some ⟨200⟩, "body"⟩ : IronResult)) true
        ⟨"http://a/", "1.2.3.4:80"⟩ 7 10 25 =
      Except.ok ((Except.ok ⟨some ⟨200⟩, "body"⟩ : IronResult),
        (⟨"http://a/", "1.2.3.4:80", some ⟨200⟩, 7, ⟨0, 15⟩⟩ : LogPacket))) ∧
    ((Except.ok ⟨some ⟨200⟩, "body"⟩ : IronResult),
        (⟨"http://a/", "1.2.3.4:80", some ⟨200⟩, 7, ⟨0, 15⟩⟩ : LogPacket)).1 =
      (fun _ => (Except.ok ⟨some ⟨200⟩, "body"⟩ : IronResult)) (⟨"http://a/", "1.2.3.4:80"⟩ : Request) :=
  ⟨by rfl,
   claim_C3_transparent (fun _ => (Except.ok ⟨some ⟨200⟩, "body"⟩ : IronResult)) true
     ⟨"http://a/", "1.2.3.4:80"⟩ 7 10 25 _ (by rfl)⟩

/-- C2 (correction witness): the claim "no request thread ever fails or
changes its response because the sink failed to write a record, including all
requests handled after the worker has terminated" is false on the code: after
the sink fails on one record the worker thread dies, and the next request's
`tx.send(...).expect("Unable to send log to logger thread")` panics the
request thread. Concretely, with a sink that fails, one processed record, and
an inner handler that succeeds, the pipeline aborts the request instead of
returning the inner response. -/
theorem claim_C2_counterexample :
    pipelineHandle (fun _ => (Except.error "disk full" : Except String Unit))
        [⟨"http://a/", "1.2.3.4:80", some ⟨200⟩, 0, ⟨0, 0⟩⟩]
        (fun _ => (Except.ok ⟨some ⟨200⟩, "ok"⟩ : IronResult))
        ⟨"http://b/", "1.2.3.4:81"⟩ 0 0 0 =
      Except.error "Unable to send log to logger thread" := by
  rfl

/-- C2 (amended): as long as the background worker is alive (no sink failure
among the records it has processed), the result of handling a request is
completely independent of the sink: it is the inner handler's result,
unchanged, no matter how the sink behaves. Sink failures only ever affect the
background worker itself and requests handled after the worker has terminated
(those panic at submission, as the counterexample shows). -/
theorem claim_C2_isolation {E : Type} (sink : LogPacket → Except E Unit)
    (processed : List LogPacket) (inner : Request → IronResult) (req : Request)
    (wallNow : SystemTime) (before after : Instant)
    (halive : workerOk sink processed = true) :
    pipelineHandle sink processed inner req wallNow before after =
      Except.ok (inner req,
        { url := req.url, ip := req.remoteAddr,
          status :=
            match inner req with
            | Except.ok success => success.status
            | Except.error failure => failure.response.status,
          start := wallNow, timing := Instant.duration_since after before }) := by
  rw [pipelineHandle, halive, handle_alive]

theorem claim_C2_isolation_witness :
    workerOk (fun _ => (Except.ok () : Except String Unit)) [] = true ∧
    pipelineHandle (fun _ => (Except.ok () : Except String Unit)) []
        (fun _ => (Except.ok ⟨some ⟨200⟩, "ok"⟩ : IronResult)) ⟨"http://b/", "1.2.3.4:81"⟩ 0 0 9 =
      Except.ok ((Except.ok ⟨some ⟨200⟩, "ok"⟩ : IronResult),
        (⟨"http://b/", "1.2.3.4:81", some ⟨200⟩, 0, ⟨0, 9⟩⟩ : LogPacket)) :=
  ⟨rfl, by
    have h := claim_C2_isolation (fun _ => (Except.ok () : Except String Unit)) []
      (fun _ => (Except.ok ⟨some ⟨200⟩, "ok"⟩ : IronResult)) ⟨"http://b/", "1.2.3.4:81"⟩ 0 0 9 rfl
    simpa using h⟩

/-- C7: the recorded duration is exactly the monotonic delta between the
mark taken after the inner handler returns and the mark taken before it is
invoked; it is non-negative; and it does not depend on the wall-clock value
read during handling (so wall-clock adjustments cannot affect it). -/
theorem claim_C7_duration {T : Type} (wallNow wallOther : SystemTime)
    (before after : Instant) (f : Unit → T) (h : before ≤ after) :
    (((time_it wallNow before after f).2.1.toNanos : Int) =
        (after : Int) - (before : Int)) ∧
    (0 : Int) ≤ ((time_it wallNow before after f).2.1.toNanos : Int) ∧
    (time_it wallOther before after f).2.1 = (time_it wallNow before after f).2.1 := by
  refine ⟨?_, ?_, rfl⟩
  · have h2 : (before : Nat) ≤ (after : Nat) := h
    simp only [time_it, Instant.duration_since, toNanos_natToDuration]
    exact Nat.cast_sub h2
  · exact Int.ofNat_nonneg _

theorem claim_C7_witness :
    (10 : Instant) ≤ 25 ∧
    ((((time_it 7 10 25 (fun _ => (0 : Nat))).2.1.toNanos : Int) =
        (25 : Int) - (10 : Int)) ∧
      (0 : Int) ≤ ((time_it 7 10 25 (fun _ => (0 : Nat))).2.1.toNanos : Int) ∧
      (time_it 99 10 25 (fun _ => (0 : Nat))).2.1 =
        (time_it 7 10 25 (fun _ => (0 : Nat))).2.1) :=
  ⟨by decide, claim_C7_duration 7 99 10 25 (fun _ => (0 : Nat)) (by decide)⟩

/-- C9: whenever the file sink's log operation returns success, exactly one
row — the encoding of the given record — has been appended and the writer has
been flushed (every buffered row is on disk) before the call returns; a write
error or a flush error is returned to the caller, never swallowed. -/
theorem claim_C9_file_sink (st : CsvWriterState) (p : LogPacket)
    (row : List String) (e : String) (flushFault : Option String)
    (hrow : encodeRow p = some row) :
    FileLogger.log none none st p =
      some (⟨st.rows ++ [row], (st.rows ++ [row]).length⟩, Except.ok ()) ∧
    FileLogger.log (some e) flushFault st p = some (st, Except.error e) ∧
    FileLogger.log none (some e) st p =
      some (⟨st.rows ++ [row], st.flushed⟩, Except.error e) := by
  unfold FileLogger.log
  rw [hrow]
  exact ⟨rfl, rfl, rfl⟩

theorem claim_C9_witness :
    encodeRow ⟨"u", "i", some ⟨404⟩, 3, ⟨0, 2000000⟩⟩ =
      some ["u", "i", "404", "0.3", "0.2000000"] ∧
    (FileLogger.log none none ⟨[], 0⟩ ⟨"u", "i", some ⟨404⟩, 3, ⟨0, 2000000⟩⟩ =
        some (⟨[["u", "i", "404", "0.3", "0.2000000"]],
          [["u", "i", "404", "0.3", "0.2000000"]].length⟩, Except.ok ()) ∧
      FileLogger.log (some "io") none ⟨[], 0⟩ ⟨"u", "i", some ⟨404⟩, 3, ⟨0, 2000000⟩⟩ =
        some (⟨[], 0⟩, Except.error "io") ∧
      FileLogger.log none (some "io") ⟨[], 0⟩ ⟨"u", "i", some ⟨404⟩, 3, ⟨0, 2000000⟩⟩ =
        some (⟨[["u", "i", "404", "0.3", "0.2000000"]], 0⟩, Except.error "io")) := by
  refine ⟨by rfl, ?_⟩
  have h := claim_C9_file_sink ⟨[], 0⟩ ⟨"u", "i", some ⟨404⟩, 3, ⟨0, 2000000⟩⟩
    ["u", "i", "404", "0.3", "0.2000000"] "io" none (by rfl)
  simpa using h

theorem sum_lengths_set {α : Type} : ∀ (ls : List (List α)) (i : Nat) (x : α)
    (rest : List α), ls[i]? = some (x :: rest) →
    (ls.map List.length).sum = ((ls.set i rest).map List.length).sum + 1 := by
  intro ls
  induction ls with
  | nil => intro i x rest h; simp at h
  | cons hd tl ih =>
    intro i x rest h
    cases i with
    | zero =>
      simp only [List.getElem?_cons_zero, Option.some.injEq] at h
      subst h
      simp [List.set]
      omega
    | succ i =>
      simp only [List.getElem?_cons_succ] at h
      simp only [List.set, List.map_cons, List.sum_cons, ih i x rest h]
      omega

theorem mergeOf_length {α : Type} {ls : List (List α)} {q : List α}
    (h : MergeOf ls q) : q.length = (ls.map List.length).sum := by
  induction h with
  | @nil ls hnil =>
    simp only [List.length_nil]
    symm
    apply List.sum_eq_zero
    intro x hx
    simp only [List.mem_map] at hx
    obtain ⟨l, hl, rfl⟩ := hx
    simp [hnil l hl]
  | @step ls i x rest q hi htail ih =>
    rw [List.length_cons, ih, sum_lengths_set ls i x rest hi]

theorem mergeOf_sublist {α : Type} {ls : List (List α)} {q : List α}
    (h : MergeOf ls q) :
    ∀ (j : Nat) (l : List α), ls[j]? = some l → l.Sublist q := by
  induction h with
  | @nil ls hnil =>
    intro j l hj
    have hmem : l ∈ ls := List.getElem?_mem hj
    have hl0 : l = [] := hnil l hmem
    subst hl0
    exact List.nil_sublist []
  | @step ls i x rest q hi htail ih =>
    intro j l hj
    by_cases hji : j = i
    · subst hji
      rw [hi, Option.some.injEq] at hj
      subst hj
      have hlen : j < ls.length := by
        by_contra hge
        rw [List.getElem?_eq_none (Nat.le_of_not_lt hge)] at hi
        cases hi
      have hrest : (ls.set j rest)[j]? = some rest := by
        rw [List.getElem?_set_self]
        exact hlen
      exact (ih j rest hrest).cons₂ x
    · have hj2 : (ls.set i rest)[j]? = some l := by
        rw [List.getElem?_set_ne (Ne.symm hji)]
        exact hj
      exact (ih j l hj2).cons x

theorem workerCalls_all_ok {E : Type} (sink : LogPacket → Except E Unit) :
    ∀ q : List LogPacket, (∀ p ∈ q, sink p = Except.ok ()) →
    workerCalls sink q = q := by
  intro q
  induction q with
  | nil => intro _; rfl
  | cons p rest ih =>
    intro h
    have hp := h p (List.mem_cons_self p rest)
    simp only [workerCalls, hp]
    rw [ih fun r hr => h r (List.mem_cons_of_mem p hr)]

/-- C5: when the queue contents are any interleaving of the per-producer
submission sequences (what an mpsc channel can deliver) and the sink accepts
every record, the worker invokes the sink exactly once per submitted record,
passing each record unaltered and in queue order — in particular the total
number of sink calls is the total number of submitted records, and every
single producer's records reach the sink as a subsequence in exactly the
order that producer submitted them (FIFO per producer, no loss, no
duplication, no reordering). -/
theorem claim_C5_delivery {E : Type} (producers : List (List LogPacket))
    (q : List LogPacket) (sink : LogPacket → Except E Unit)
    (hmerge : MergeOf producers q) (hok : ∀ p ∈ q, sink p = Except.ok ()) :
    workerCalls sink q = q ∧
    (workerCalls sink q).length = (producers.map List.length).sum ∧
    ∀ (j : Nat) (l : List LogPacket), producers[j]? = some l →
      l.Sublist (workerCalls sink q) := by
  have hcalls := workerCalls_all_ok sink q hok
  refine ⟨hcalls, ?_, ?_⟩
  · rw [hcalls]
    exact mergeOf_length hmerge
  · intro j l hj
    rw [hcalls]
    exact mergeOf_sublist hmerge j l hj

theorem claim_C5_witness :
    workerCalls (fun _ => (Except.ok () : Except String Unit))
        [⟨"http://a/", "1.1.1.1:1", some ⟨200⟩, 0, ⟨0, 5000000⟩⟩,
         ⟨"http://b/", "2.2.2.2:2", some ⟨404⟩, 0, ⟨0, 2000000⟩⟩] =
      [⟨"http://a/", "1.1.1.1:1", some ⟨200⟩, 0, ⟨0, 5000000⟩⟩,
       ⟨"http://b/", "2.2.2.2:2", some ⟨404⟩, 0, ⟨0, 2000000⟩⟩] ∧
    (workerCalls (fun _ => (Except.ok () : Except String Unit))
        [⟨"http://a/", "1.1.1.1:1", some ⟨200⟩, 0, ⟨0, 5000000⟩⟩,
         ⟨"http://b/", "2.2.2.2:2", some ⟨404⟩, 0, ⟨0, 2000000⟩⟩]).length =
      (([[⟨"http://a/", "1.1.1.1:1", some ⟨200⟩, 0, ⟨0, 5000000⟩⟩],
         [⟨"http://b/", "2.2.2.2:2", some ⟨404⟩, 0, ⟨0, 2000000⟩⟩]] :
        List (List LogPacket)).map List.length).sum ∧
    ∀ (j : Nat) (l : List LogPacket),
      ([[⟨"http://a/", "1.1.1.1:1", some ⟨200⟩, 0, ⟨0, 5000000⟩⟩],
        [⟨"http://b/", "2.2.2.2:2", some ⟨404⟩, 0, ⟨0, 2000000⟩⟩]] :
        List (List LogPacket))[j]? = some l →
      l.Sublist (workerCalls (fun _ => (Except.ok () : Except String Unit))
        [⟨"http://a/", "1.1.1.1:1", some ⟨200⟩, 0, ⟨0, 5000000⟩⟩,
         ⟨"http://b/", "2.2.2.2:2", some ⟨404⟩, 0, ⟨0, 2000000⟩⟩]) :=
  claim_C5_delivery
    [[⟨"http://a/", "1.1.1.1:1", some ⟨200⟩, 0, ⟨0, 5000000⟩⟩],
     [⟨"http://b/", "2.2.2.2:2", some ⟨404⟩, 0, ⟨0, 2000000⟩⟩]]
    [⟨"http://a/", "1.1.1.1:1", some ⟨200⟩, 0, ⟨0, 5000000⟩⟩,
     ⟨"http://b/", "2.2.2.2:2", some ⟨404⟩, 0, ⟨0, 2000000⟩⟩]
    (fun _ => (Except.ok () : Except String Unit))
    (MergeOf.step (i := 0) rfl
      (MergeOf.step (i := 1) rfl
        (MergeOf.nil (by intro l hl; simpa using hl))))
    (fun p _ => rfl)

/-- C6: a sink failure is fatal to the worker: the failing record is
attempted exactly once (no retry), the worker stops, and no later queued
record is ever passed to the sink — the call sequence is exactly the
successfully logged prefix followed by the one failing attempt. -/
theorem claim_C6_fatal {E : Type} (sink : LogPacket → Except E Unit)
    (ps qs : List LogPacket) (p : LogPacket) (e : E)
    (hps : ∀ r ∈ ps, sink r = Except.ok ()) (hp : sink p = Except.error e) :
    workerCalls sink (ps ++ p :: qs) = ps ++ [p] ∧
    workerOk sink (ps ++ p :: qs) = false := by
  induction ps with
  | nil =>
    constructor
    · simp only [List.nil_append, workerCalls, hp]
    · simp only [List.nil_append, workerOk, hp]
  | cons r rest ih =>
    have hr := hps r (List.mem_cons_self r rest)
    have ih2 := ih fun s hs => hps s (List.mem_cons_of_mem r hs)
    constructor
    · simp only [List.cons_append, List.append_eq, workerCalls, hr, ih2.1]
    · simp only [List.cons_append, List.append_eq, workerOk, hr, ih2.2]

theorem claim_C6_witness :
    workerCalls
        (fun pk => if pk.url = "bad" then (Except.error "io" : Except String Unit)
          else Except.ok ())
        [⟨"good", "1.1.1.1:1", some ⟨200⟩, 0, ⟨0, 0⟩⟩,
         ⟨"bad", "2.2.2.2:2", some ⟨404⟩, 0, ⟨0, 0⟩⟩,
         ⟨"later", "3.3.3.3:3", some ⟨500⟩, 0, ⟨0, 0⟩⟩] =
      [⟨"good", "1.1.1.1:1", some ⟨200⟩, 0, ⟨0, 0⟩⟩,
       ⟨"bad", "2.2.2.2:2", some ⟨404⟩, 0, ⟨0, 0⟩⟩] ∧
    workerOk
        (fun pk => if pk.url = "bad" then (Except.error "io" : Except String Unit)
          else Except.ok ())
        [⟨"good", "1.1.1.1:1", some ⟨200⟩, 0, ⟨0, 0⟩⟩,
         ⟨"bad", "2.2.2.2:2", some ⟨404⟩, 0, ⟨0, 0⟩⟩,
         ⟨"later", "3.3.3.3:3", some ⟨500⟩, 0, ⟨0, 0⟩⟩] = false :=
  claim_C6_fatal
    (fun pk => if pk.url = "bad" then (Except.error "io" : Except String Unit)
      else Except.ok ())
    [⟨"good", "1.1.1.1:1", some ⟨200⟩, 0, ⟨0, 0⟩⟩]
    [⟨"later", "3.3.3.3:3", some ⟨500⟩, 0, ⟨0, 0⟩⟩]
    ⟨"bad", "2.2.2.2:2", some ⟨404⟩, 0, ⟨0, 0⟩⟩ "io"
    (by intro r hr; simp at hr; subst hr; rfl)
    (by rfl)

theorem encodeRow_eq (p : LogPacket) (d : Duration)
    (hd : durationSinceEpoch p.start = some d) :
    encodeRow p = some [p.url, p.ip, statusField p.status,
      encode_duration d, encode_duration p.timing] := by
  unfold encodeRow LogPacket.encode
  simp only [hd]
  cases hps : p.status <;> simp [hps, emitOptStr, emitStr, statusField]

theorem toDigitsCore_acc (b : Nat) : ∀ (f n : Nat) (l : List Char),
    Nat.toDigitsCore b f n l = Nat.toDigitsCore b f n [] ++ l := by
  intro f
  induction f with
  | zero => intro n l; simp [Nat.toDigitsCore]
  | succ f ih =>
    intro n l
    simp only [Nat.toDigitsCore]
    by_cases h : n / b = 0
    · simp [h]
    · simp only [h, if_false]
      rw [ih (n / b) (Nat.digitChar (n % b) :: l), ih (n / b) [Nat.digitChar (n % b)]]
      simp

theorem charVal_digitChar (m : Nat) (h : m < 10) :
    charVal (Nat.digitChar m) = m := by
  interval_cases m <;> rfl

theorem digitChar_ne_dot (m : Nat) : Nat.digitChar m ≠ '.' := by
  by_cases h : m < 16
  · interval_cases m <;> decide
  · unfold Nat.digitChar
    repeat rw [if_neg (by omega)]
    decide

theorem foldl_valStep : ∀ (l : List Char) (a : Nat),
    l.foldl valStep a = a * 10 ^ l.length + valOf l := by
  intro l
  induction l with
  | nil => intro a; simp [valOf]
  | cons c t ih =>
    intro a
    simp only [List.foldl_cons, List.length_cons, valOf]
    rw [ih (valStep a c), ih (valStep 0 c)]
    simp only [valStep]
    ring

theorem valOf_append_singleton (l : List Char) (c : Char) :
    valOf (l ++ [c]) = 10 * valOf l + charVal c := by
  simp [valOf, valStep, List.foldl_append]

theorem val_toDigitsCore : ∀ (f n : Nat), n < 10 ^ f →
    valOf (Nat.toDigitsCore 10 f n []) = n := by
  intro f
  induction f with
  | zero =>
    intro n h
    simp only [pow_zero, Nat.lt_one_iff] at h
    subst h
    rfl
  | succ f ih =>
    intro n h
    simp only [Nat.toDigitsCore]
    by_cases h0 : n / 10 = 0
    · rw [if_pos h0]
      have hv : valOf [Nat.digitChar (n % 10)] = charVal (Nat.digitChar (n % 10)) := by
        simp [valOf, valStep]
      rw [hv, charVal_digitChar (n % 10) (Nat.mod_lt n (by norm_num))]
      omega
    · rw [if_neg h0]
      rw [toDigitsCore_acc 10 f (n / 10) [Nat.digitChar (n % 10)]]
      rw [valOf_append_singleton]
      have hlt : n / 10 < 10 ^ f := by
        rw [Nat.div_lt_iff_lt_mul (by norm_num)]
        calc n < 10 ^ (f + 1) := h
          _ = 10 ^ f * 10 := by ring
      rw [ih (n / 10) hlt, charVal_digitChar (n % 10) (Nat.mod_lt n (by norm_num))]
      omega

theorem repr_data_eq (n : Nat) :
    (Nat.repr n).data = Nat.toDigitsCore 10 (n + 1) n [] := rfl

theorem valOf_repr (n : Nat) : valOf (Nat.repr n).data = n := by
  rw [repr_data_eq]
  apply val_toDigitsCore
  calc n < 10 ^ n := Nat.lt_pow_self (by norm_num) n
    _ ≤ 10 ^ (n + 1) := Nat.pow_le_pow_right (by norm_num) (Nat.le_succ n)

theorem repr_ne_empty (n : Nat) : Nat.repr n ≠ "" := by
  intro h
  have h0 := valOf_repr n
  rw [h] at h0
  have hn : n = 0 := by simpa [valOf] using h0.symm
  subst hn
  exact absurd h (by decide)

theorem mem_toDigitsCore (b : Nat) : ∀ (f n : Nat) (l : List Char) (c : Char),
    c ∈ Nat.toDigitsCore b f n l → c ∈ l ∨ ∃ m, c = Nat.digitChar m := by
  intro f
  induction f with
  | zero => intro n l c hc; exact Or.inl hc
  | succ f ih =>
    intro n l c hc
    simp only [Nat.toDigitsCore] at hc
    by_cases h0 : n / b = 0
    · rw [if_pos h0] at hc
      rcases List.mem_cons.mp hc with h | h
      · exact Or.inr ⟨n % b, h⟩
      · exact Or.inl h
    · rw [if_neg h0] at hc
      rcases ih (n / b) (Nat.digitChar (n % b) :: l) c hc with h | h
      · rcases List.mem_cons.mp h with h2 | h2
        · exact Or.inr ⟨n % b, h2⟩
        · exact Or.inl h2
      · exact Or.inr h

theorem dot_not_mem_repr (n : Nat) : '.' ∉ (Nat.repr n).data := by
  intro h
  rw [repr_data_eq] at h
  rcases mem_toDigitsCore 10 (n + 1) n [] '.' h with h2 | ⟨m, h2⟩
  · simp at h2
  · exact digitChar_ne_dot m h2.symm

theorem splitAtDot_append (l r : List Char) (h : '.' ∉ l) :
    splitAtDot (l ++ '.' :: r) = some (l, r) := by
  induction l with
  | nil => simp [splitAtDot]
  | cons c t ih =>
    have hc : c ≠ '.' := fun hc => h (hc ▸ List.mem_cons_self c t)
    simp only [List.cons_append, List.append_eq, splitAtDot, if_neg hc]
    rw [ih fun ht => h (List.mem_cons_of_mem c ht)]
    rfl

theorem decode_encode_duration (d : Duration) :
    decode_duration (encode_duration d) = some (d.secs, d.nanos) := by
  unfold decode_duration encode_duration
  have hd : (Nat.repr d.secs ++ "." ++ Nat.repr d.nanos).data =
      (Nat.repr d.secs).data ++ '.' :: (Nat.repr d.nanos).data := by
    simp [String.data_append, List.append_assoc]
  rw [hd, splitAtDot_append _ _ (dot_not_mem_repr d.secs)]
  simp [valOf_repr]

theorem rowStatus_eq (p : LogPacket) (d : Duration)
    (hd : durationSinceEpoch p.start = some d) :
    rowStatus p = some (statusField p.status) := by
  unfold rowStatus
  rw [encodeRow_eq p d hd]
  rfl

/-- C4: for every packet whose start time is representable (at or after the
epoch, so encoding does not abort), the codec emits exactly five fields in
the fixed order url, client address, status, start time, duration, where
start time and duration are each the whole seconds, a dot, and the
fractional nanoseconds. -/
theorem claim_C4_row_format (p : LogPacket) (d : Duration)
    (hd : durationSinceEpoch p.start = some d) :
    encodeRow p = some [p.url, p.ip, statusField p.status,
      Nat.repr d.secs ++ "." ++ Nat.repr d.nanos,
      Nat.repr p.timing.secs ++ "." ++ Nat.repr p.timing.nanos] := by
  rw [encodeRow_eq p d hd]
  rfl

theorem claim_C4_witness :
    durationSinceEpoch (3 : SystemTime) = some ⟨0, 3⟩ ∧
    encodeRow ⟨"u", "i", some ⟨404⟩, 3, ⟨0, 2000000⟩⟩ =
      some ["u", "i", statusField (some ⟨404⟩),
        Nat.repr 0 ++ "." ++ Nat.repr 3,
        Nat.repr 0 ++ "." ++ Nat.repr 2000000] :=
  ⟨rfl, claim_C4_row_format ⟨"u", "i", some ⟨404⟩, 3, ⟨0, 2000000⟩⟩ ⟨0, 3⟩ rfl⟩

/-- C1: a request whose inner handler succeeds with status 200 is logged
with status field encoding to the string "200"; a request whose inner
handler fails with a response carrying status 500 is logged with status
field encoding to the string "500" (start time at or after the epoch so the
row encodes). -/
theorem claim_C1_status_strings (req : Request) (wallNow : SystemTime)
    (before after : Instant) (okBody errBody : String) (hw : 0 ≤ wallNow) :
    ((LogHandler.handle (fun _ => (Except.ok ⟨some ⟨200⟩, okBody⟩ : IronResult))
        true req wallNow before after).toOption.map (fun r => rowStatus r.2) =
      some (some "200")) ∧
    ((LogHandler.handle (fun _ => (Except.error ⟨⟨some ⟨500⟩, errBody⟩⟩ : IronResult))
        true req wallNow before after).toOption.map (fun r => rowStatus r.2) =
      some (some "500")) := by
  have hd : durationSinceEpoch wallNow = some (natToDuration wallNow.toNat) := by
    unfold durationSinceEpoch
    rw [if_pos hw]
  constructor
  · rw [handle_alive]
    show some (rowStatus _) = _
    rw [rowStatus_eq _ (natToDuration wallNow.toNat) hd]
    rfl
  · rw [handle_alive]
    show some (rowStatus _) = _
    rw [rowStatus_eq _ (natToDuration wallNow.toNat) hd]
    rfl

theorem claim_C1_witness :
    (0 : SystemTime) ≤ 0 ∧
    (((LogHandler.handle (fun _ => (Except.ok ⟨some ⟨200⟩, "ok"⟩ : IronResult))
        true ⟨"http://a/", "1.2.3.4:80"⟩ 0 0 0).toOption.map
          (fun r => rowStatus r.2) = some (some "200")) ∧
     ((LogHandler.handle (fun _ => (Except.error ⟨⟨some ⟨500⟩, "err"⟩⟩ : IronResult))
        true ⟨"http://a/", "1.2.3.4:80"⟩ 0 0 0).toOption.map
          (fun r => rowStatus r.2) = some (some "500"))) :=
  ⟨by decide,
   claim_C1_status_strings ⟨"http://a/", "1.2.3.4:80"⟩ 0 0 0 "ok" "err" (by decide)⟩

/-- C8: a packet with absent status (start time representable) is logged
with an empty status field, and the empty marker is distinguishable from the
encoding of every possible present status: no present status ever encodes to
the empty string, and no sentinel numeric code is substituted. -/
theorem claim_C8_absent_status (p : LogPacket) (d : Duration)
    (hnone : p.status = none) (hd : durationSinceEpoch p.start = some d) :
    rowStatus p = some "" ∧ ∀ s : Status, statusField (some s) ≠ "" := by
  constructor
  · rw [rowStatus_eq p d hd, hnone]
    rfl
  · intro s
    show statusDebug s ≠ ""
    exact repr_ne_empty s.code

theorem claim_C8_witness :
    rowStatus ⟨"u", "i", none, 0, ⟨0, 0⟩⟩ = some "" ∧
    ∀ s : Status, statusField (some s) ≠ "" :=
  claim_C8_absent_status ⟨"u", "i", none, 0, ⟨0, 0⟩⟩ ⟨0, 0⟩ rfl rfl

/-- C10: the duration encoder does not zero-pad the nanosecond component:
when the subsecond nanoseconds are below 100000000 the fractional part of
the emitted string (the decimal form of the nanosecond count) has fewer than
nine digits; for example one second plus five nanoseconds encodes as "1.5",
whose reading as decimal seconds (1500000000 ns) differs from the encoded
value (1000000005 ns); yet the encoding is deterministic and injective —
seconds and nanoseconds are recovered exactly by splitting at the first
dot. -/
theorem claim_C10_encoding (d : Duration) (h : d.nanos < 100000000) :
    (Nat.repr d.nanos).length < 9 ∧
    encode_duration d = Nat.repr d.secs ++ "." ++ Nat.repr d.nanos ∧
    decode_duration (encode_duration d) = some (d.secs, d.nanos) ∧
    (∀ d2 : Duration, encode_duration d2 = encode_duration d → d2 = d) ∧
    encode_duration ⟨1, 5⟩ = "1.5" ∧
    Duration.toNanos ⟨1, 5⟩ ≠ 1500000000 := by
  refine ⟨?_, rfl, decode_encode_duration d, ?_, by rfl, by decide⟩
  · have hpow : (10 : Nat) ^ 8 = 100000000 := by norm_num
    have h8 : d.nanos < 10 ^ 8 := by
      rw [hpow]
      exact h
    have hlen := Nat.repr_length d.nanos 8 (by norm_num) h8
    omega
  · intro d2 h2
    have e1 := decode_encode_duration d2
    rw [h2, decode_encode_duration d] at e1
    simp only [Option.some.injEq, Prod.mk.injEq] at e1
    obtain ⟨s2, n2⟩ := d2
    obtain ⟨s1, n1⟩ := d
    simp only [Duration.mk.injEq]
    exact ⟨e1.1.symm, e1.2.symm⟩

theorem claim_C10_witness :
    (5 : Nat) < 100000000 ∧
    ((Nat.repr (5 : Nat)).length < 9 ∧
      encode_duration ⟨1, 5⟩ = Nat.repr 1 ++ "." ++ Nat.repr 5 ∧
      decode_duration (encode_duration ⟨1, 5⟩) = some (1, 5) ∧
      (∀ d2 : Duration, encode_duration d2 = encode_duration ⟨1, 5⟩ → d2 = ⟨1, 5⟩) ∧
      encode_duration ⟨1, 5⟩ = "1.5" ∧
      Duration.toNanos ⟨1, 5⟩ ≠ 1500000000) :=
  ⟨by decide, claim_C10_encoding ⟨1, 5⟩ (by decide)⟩
